import Mathlib

/-!
Verification development for update_html.py, a one-shot batch editor for a
tree of static HTML files.  The Python source is embedded shallowly:

* Python string methods (strip, split, lower, startswith, replace with a
  one-character pattern, substring containment) are re-implemented over
  List Char, byte-for-byte faithful to CPython for the ASCII inputs the
  program manipulates (str.lower is modelled on ASCII letters only).
* The BeautifulSoup document is modelled as a mutually inductive tree of
  element / text / comment nodes; BeautifulSoup's find/find_all preorder
  traversal, attribute access and in-place mutation become explicit
  recursive functions returning the new tree together with the changed flag.
* The regexes of the source are tiny anchored patterns and are expanded to
  their exact semantics, including the CPython rule that a final "$" also
  matches just before one trailing newline.
* html.unescape is treated as an external collaborator: every theorem about
  the CSP rewrite is proved for an arbitrary unescape function, and a
  concrete executable model (numeric character references plus the five
  basic named entities) instantiates it in witnesses.
-/

/-! ## Python string primitives -/

/-- Python str.isspace characters relevant to str.strip and str.split
(ASCII whitespace: space, tab, newline, carriage return, vertical tab,
form feed). -/
def pyIsSpace (c : Char) : Bool :=
  c = ' ' || c = '\t' || c = '\n' || c = '\r' || c.toNat = 11 || c.toNat = 12

/-- Python str.strip() on character lists: drop whitespace from both ends. -/
def pyStripL (l : List Char) : List Char :=
  ((l.dropWhile pyIsSpace).reverse.dropWhile pyIsSpace).reverse

/-- Python str.strip() for strings. -/
def pyStrip (s : String) : String := String.mk (pyStripL s.data)

/-- Python str.strip(chars) on lists: drop the given characters from both
ends (used in the source as src.strip("'\"")). -/
def pyStripCharsL (cs : List Char) (l : List Char) : List Char :=
  ((l.dropWhile (cs.contains ·)).reverse.dropWhile (cs.contains ·)).reverse

/-- The apostrophe character, written by code point to keep it out of
character literals. -/
def aposChar : Char := Char.ofNat 39

/-- The double-quote character. -/
def dquoteChar : Char := Char.ofNat 34

/-- Python src.strip("'\"") from the source: strip apostrophes and double
quotes from both ends of a token. -/
def stripQuotes (s : String) : String :=
  String.mk (pyStripCharsL [aposChar, dquoteChar] s.data)

/-- Helper for Python str.split() (no separator): accumulate the current
word in reverse, splitting on whitespace runs and producing no empty words. -/
def pySplitWsAux : List Char → List Char → List String
  | [], acc => if acc.isEmpty then [] else [String.mk acc.reverse]
  | c :: rest, acc =>
    if pyIsSpace c then
      if acc.isEmpty then pySplitWsAux rest []
      else String.mk acc.reverse :: pySplitWsAux rest []
    else pySplitWsAux rest (c :: acc)

/-- Python str.split() with no argument: split on whitespace runs,
discarding empty strings (used in the source as d.split()). -/
def pySplitWs (s : String) : List String := pySplitWsAux s.data []

/-- Helper for Python str.split(';'): split at every semicolon, keeping
empty segments, the accumulator holding the current segment reversed. -/
def splitSemiAux : List Char → List Char → List String
  | [], acc => [String.mk acc.reverse]
  | c :: rest, acc =>
    if c = ';' then String.mk acc.reverse :: splitSemiAux rest []
    else splitSemiAux rest (c :: acc)

/-- Python decoded.split(';') from the source. -/
def splitSemi (s : String) : List String := splitSemiAux s.data []

/-- ASCII lower-casing of one character, the fragment of Python str.lower
exercised by the source (all compared literals are ASCII). -/
def lowerChar (c : Char) : Char :=
  if c.toNat ≥ 65 ∧ c.toNat ≤ 90 then Char.ofNat (c.toNat + 32) else c

/-- Python str.lower() restricted to ASCII letters. -/
def strLower (s : String) : String := String.mk (s.data.map lowerChar)

/-- Python str.startswith(p). -/
def strStartsWith (s p : String) : Bool := p.data.isPrefixOf s.data

/-- Python substring containment (needle in haystack) over lists. -/
def hasInfixL (needle : List Char) : List Char → Bool
  | [] => needle.isEmpty
  | c :: rest => needle.isPrefixOf (c :: rest) || hasInfixL needle rest

/-- The five characters of the numeric apostrophe entity. -/
def ent39 : List Char := String.data "&#39;"

/-- Python raw_content containing the numeric apostrophe entity, the
source's test ('&#39;' in raw_content). -/
def hasEntityApos (s : String) : Bool := hasInfixL ent39 s.data

/-- Python new_content.replace("'", "&#39;"): a one-character pattern, so
replacement is per-occurrence left to right over all apostrophes. -/
def replaceAposL : List Char → List Char
  | [] => []
  | c :: rest =>
    if c = aposChar then ent39 ++ replaceAposL rest else c :: replaceAposL rest

/-- String form of the source's apostrophe-to-entity replacement. -/
def replaceApos (s : String) : String := String.mk (replaceAposL s.data)

/-! ## Model of html.unescape

The source calls html.unescape on the CSP attribute value.  Every theorem
below that involves unescaping is proved for an arbitrary function in its
place; the executable model here covers decimal and hexadecimal numeric
character references and the named entities amp, lt, gt, quot, apos
(semicolon-terminated), which is the fragment the repository's data
exercises, and it is what concrete witnesses evaluate. -/

/-- Decimal digit value of a character, if any. -/
def decDigitVal (c : Char) : Option Nat :=
  if c.toNat ≥ 48 ∧ c.toNat ≤ 57 then some (c.toNat - 48) else none

/-- Hexadecimal digit value of a character, if any. -/
def hexDigitVal (c : Char) : Option Nat :=
  if c.toNat ≥ 48 ∧ c.toNat ≤ 57 then some (c.toNat - 48)
  else if c.toNat ≥ 97 ∧ c.toNat ≤ 102 then some (c.toNat - 87)
  else if c.toNat ≥ 65 ∧ c.toNat ≤ 70 then some (c.toNat - 55)
  else none

/-- Scan a run of decimal digits terminated by a semicolon, returning the
accumulated value and the remainder. -/
def scanDec : List Char → Nat → Option (Nat × List Char)
  | [], _ => none
  | c :: rest, acc =>
    match decDigitVal c with
    | some d => scanDec rest (acc * 10 + d)
    | none => if c = ';' then some (acc, rest) else none

/-- Scan a run of hexadecimal digits terminated by a semicolon. -/
def scanHex : List Char → Nat → Option (Nat × List Char)
  | [], _ => none
  | c :: rest, acc =>
    match hexDigitVal c with
    | some d => scanHex rest (acc * 16 + d)
    | none => if c = ';' then some (acc, rest) else none

/-- Turn a scanned code point into a character, substituting U+FFFD for
values that are not scalar values. -/
def charOfRef (v : Nat) : Char :=
  if _h : v.isValidChar then Char.ofNat v else Char.ofNat 0xFFFD

/-- Try to read one character reference right after an ampersand, returning
the decoded character and the rest of the input. -/
def tryRef : List Char → Option (Char × List Char)
  | c :: rest =>
    if c = '#' then
      match rest with
      | x :: rest2 =>
        if x = 'x' ∨ x = 'X' then
          match rest2 with
          | d :: _ =>
            if (hexDigitVal d).isSome then
              match scanHex rest2 0 with
              | some (v, tail) => some (charOfRef v, tail)
              | none => none
            else none
          | [] => none
        else if (decDigitVal x).isSome then
          match scanDec rest 0 with
          | some (v, tail) => some (charOfRef v, tail)
          | none => none
        else none
      | [] => none
    else
      if ("amp;".data.isPrefixOf (c :: rest)) then some ('&', (c :: rest).drop 4)
      else if ("lt;".data.isPrefixOf (c :: rest)) then some ('<', (c :: rest).drop 3)
      else if ("gt;".data.isPrefixOf (c :: rest)) then some ('>', (c :: rest).drop 3)
      else if ("quot;".data.isPrefixOf (c :: rest)) then some (dquoteChar, (c :: rest).drop 5)
      else if ("apos;".data.isPrefixOf (c :: rest)) then some (aposChar, (c :: rest).drop 5)
      else none
  | [] => none

/-- Single left-to-right unescaping pass; the fuel argument (initialised to
the input length) only serves structural termination, every step consumes
at least one input character. -/
def unescapeFuel : Nat → List Char → List Char
  | 0, l => l
  | _ + 1, [] => []
  | fuel + 1, c :: rest =>
    if c = '&' then
      match tryRef rest with
      | some (ch, tail) => ch :: unescapeFuel fuel tail
      | none => c :: unescapeFuel fuel rest
    else c :: unescapeFuel fuel rest

/-- Executable model of html.unescape on the entity fragment described
above. -/
def htmlUnescapeModel (s : String) : String :=
  String.mk (unescapeFuel s.data.length s.data)

/-! ## The CSP content rewrite (adjust_csp_meta, string part)

Source lines 146-171: unescape the raw attribute value, split it into
directives on semicolons (strip whitespace, drop empty segments), rewrite
any directive starting case-insensitively with script-src, append a fresh
script-src directive when none was found, join with "; ", and restore the
entity apostrophe style when the original value contained &#39;. -/

/-- Directives list from the decoded value, source line 149:
[d.strip() for d in decoded.split(';') if d.strip()]. -/
def parseDirectives (decoded : String) : List String :=
  ((splitSemi decoded).map pyStrip).filter (fun d => d ≠ "")

/-- Loop condition of source line 154: d.lower().startswith('script-src'). -/
def isScriptSrcDirective (d : String) : Bool :=
  strStartsWith (strLower d) "script-src"

/-- Quote-stripped membership test of source line 157:
any(src.strip("'\"") == 'self' for src in sources). -/
def sourcesHaveSelf (sources : List String) : Bool :=
  sources.any (fun src => stripQuotes src = "self")

/-- Source lines 155-159: split the matched directive into words, drop the
name, append 'self' unless some token quote-strips to self, and re-emit
under the literal name script-src, single-space joined. -/
def rewriteScriptSrc (d : String) : String :=
  let sources := (pySplitWs d).tail
  let sources2 := if sourcesHaveSelf sources then sources else sources ++ ["'self'"]
  "script-src " ++ String.intercalate " " sources2

/-- One iteration of the loop of source lines 153-162. -/
def rewriteDirective (d : String) : String :=
  if isScriptSrcDirective d then rewriteScriptSrc d else d

/-- The whole loop of source lines 151-165: each directive is rewritten in
place (the pass over the list), and script_src_found is the flag telling
whether any iteration took the script-src branch; when it stayed false a
final script-src 'self' directive is appended. -/
def newDirectives (dirs : List String) : List String :=
  if dirs.any isScriptSrcDirective then dirs.map rewriteDirective
  else dirs.map rewriteDirective ++ ["script-src 'self'"]

/-- Source lines 146-171 as one function from the raw attribute value to
the rewritten value, parametric in the unescape collaborator. -/
def newCspContent (unescape : String → String) (raw : String) : String :=
  let decoded := unescape raw
  let dirs := parseDirectives decoded
  let joined := String.intercalate "; " (newDirectives dirs)
  if hasEntityApos raw then replaceApos joined else joined


/-! ## The document tree

A parsed BeautifulSoup document: element nodes with a (parser-lowercased)
tag name, an ordered attribute list, and children; text nodes; comment
nodes.  The soup object itself is the top-level node list.  NodeList is a
dedicated mutual inductive rather than List Node so that all traversals are
structurally recursive and evaluate inside the kernel. -/

mutual
inductive Node where
  | elem (tag : String) (attrs : List (String × String)) (children : NodeList)
  | text (s : String)
  | comment (s : String)
inductive NodeList where
  | nil
  | cons (n : Node) (rest : NodeList)
end

/-- Build a NodeList from a Lean list literal. -/
def nlOf : List Node → NodeList
  | [] => .nil
  | n :: rest => .cons n (nlOf rest)

/-- Concatenation of node lists. -/
def nlAppend : NodeList → NodeList → NodeList
  | .nil, l2 => l2
  | .cons n rest, l2 => .cons n (nlAppend rest l2)

/-- Attribute lookup (tag['k'] read access / has_attr). -/
def getAttr (attrs : List (String × String)) (k : String) : Option String :=
  match attrs.find? (fun p => p.1 = k) with
  | some p => some p.2
  | none => none

/-- BeautifulSoup tag.has_attr(k). -/
def hasAttrB (attrs : List (String × String)) (k : String) : Bool :=
  (getAttr attrs k).isSome

/-- Attribute write (tag['k'] = v): replace the existing entry in place, or
append a new one at the end. -/
def setAttr (attrs : List (String × String)) (k v : String) : List (String × String) :=
  if hasAttrB attrs k then attrs.map (fun p => if p.1 = k then (k, v) else p)
  else attrs ++ [(k, v)]

/-- Attribute list of a node (empty for text and comments). -/
def attrsOf : Node → List (String × String)
  | .elem _ a _ => a
  | _ => []

/-- Semantics of re.search with an anchored pattern and re.IGNORECASE on a
literal ASCII pattern without a trailing newline: the value matches
case-insensitively either the pattern itself or, because a final dollar in
a CPython pattern also matches just before one newline ending the string,
the pattern followed by a single newline. -/
def anchoredIMatch (v pat : String) : Bool :=
  strLower v = pat || strLower v = pat ++ "\n"

/-- Source line 104: re.compile of an anchored, escaped /preview.js with
re.IGNORECASE, applied to the src attribute. -/
def previewSrcMatch (v : String) : Bool := anchoredIMatch v "/preview.js"

/-- Source lines 139-141: the anchored alternation of the two CSP meta
names under re.IGNORECASE, applied to the http-equiv attribute. -/
def cspNameMatch (v : String) : Bool :=
  anchoredIMatch v "content-security-policy" ||
  anchoredIMatch v "x-content-security-policy"

/-- Filter of soup.find('script', src=...): a script element whose src
attribute exists and matches the preview pattern. -/
def isPreviewScript : Node → Bool
  | .elem t a _ =>
    t = "script" &&
      (match getAttr a "src" with
       | some v => previewSrcMatch v
       | none => false)
  | _ => false

/-- Filter of soup.body: the first body element. -/
def isBody : Node → Bool
  | .elem t _ _ => t = "body"
  | _ => false

/-- Filter of soup.find('meta', attrs=...): a meta element whose http-equiv
attribute exists and matches the CSP name pattern. -/
def isCspMeta : Node → Bool
  | .elem t a _ =>
    t = "meta" &&
      (match getAttr a "http-equiv" with
       | some v => cspNameMatch v
       | none => false)
  | _ => false

/-- Comment nodes, the targets of the extraction loop in process_file. -/
def isCommentNode : Node → Bool
  | .comment _ => true
  | _ => false

/-! Preorder search, the order in which BeautifulSoup's find walks the
descendants of the soup. -/

mutual
def findFirstN (p : Node → Bool) : Node → Option Node
  | .elem t a cs =>
    if p (.elem t a cs) then some (.elem t a cs) else findFirstL p cs
  | .text s => if p (.text s) then some (.text s) else none
  | .comment s => if p (.comment s) then some (.comment s) else none
def findFirstL (p : Node → Bool) : NodeList → Option Node
  | .nil => none
  | .cons n rest =>
    match findFirstN p n with
    | some r => some r
    | none => findFirstL p rest
end

/-- The tag created by soup.new_tag('script', src="/preview.js"). -/
def newScriptTag : Node := .elem "script" [("src", "/preview.js")] .nil

/-! soup.body.append(new_tag): append the new script as last child of the
first body element in preorder.  The Bool reports whether a body was found
in the subtree, so the search stops at the first one. -/

mutual
def appendBodyN : Node → Node × Bool
  | .elem t a cs =>
    if t = "body" then (.elem t a (nlAppend cs (.cons newScriptTag .nil)), true)
    else
      match appendBodyL cs with
      | (cs2, b) => (.elem t a cs2, b)
  | n => (n, false)
def appendBodyL : NodeList → NodeList × Bool
  | .nil => (.nil, false)
  | .cons n rest =>
    match appendBodyN n with
    | (n2, true) => (.cons n2 rest, true)
    | (_, false) =>
      match appendBodyL rest with
      | (rest2, b) => (.cons n rest2, b)
end

/-- Source lines 102-112, ensure_script: report unchanged if a matching
script exists anywhere; otherwise append the new tag to the first body if
any, else to the soup itself, and report changed. -/
def ensureScript (l : NodeList) : Bool × NodeList :=
  if (findFirstL isPreviewScript l).isSome then (false, l)
  else if (findFirstL isBody l).isSome then
    match appendBodyL l with
    | (l2, _) => (true, l2)
  else (true, nlAppend l (.cons newScriptTag .nil))

/-- The attribute writes of source lines 121-122 on one anchor:
a['target'] = '_blank' and a['rel'] = 'noopener noreferrer'. -/
def hardenAttrs (a : List (String × String)) : List (String × String) :=
  setAttr (setAttr a "target" "_blank") "rel" "noopener noreferrer"

/-! Source lines 115-124, add_target_blank: every anchor in the tree that
has no target attribute gets the two attributes; changed is the or over
all anchors. -/

mutual
def addTargetN : Node → Node × Bool
  | .elem t a cs =>
    match addTargetL cs with
    | (cs2, cb) =>
      if t = "a" && !(hasAttrB a "target") then (.elem t (hardenAttrs a) cs2, true)
      else (.elem t a cs2, cb)
  | n => (n, false)
def addTargetL : NodeList → NodeList × Bool
  | .nil => (.nil, false)
  | .cons n rest =>
    match addTargetN n, addTargetL rest with
    | (n2, b1), (rest2, b2) => (.cons n2 rest2, b1 || b2)
end

/-- Source lines 115-124 at the document level. -/
def addTargetBlank (l : NodeList) : Bool × NodeList :=
  match addTargetL l with
  | (l2, b) => (b, l2)

/-- Source lines 127-129, adjust_body: Python's short-circuiting or of
ensure_script(soup) and add_target_blank(soup) — when the script insertion
reports a change, the link pass is not executed at all. -/
def adjustBody (l : NodeList) : Bool × NodeList :=
  match ensureScript l with
  | (true, l2) => (true, l2)
  | (false, l2) => addTargetBlank l2

/-- The write meta['content'] = new_content on one node. -/
def setContentAttr (n : Node) (nc : String) : Node :=
  match n with
  | .elem t a cs => .elem t (setAttr a "content" nc) cs
  | other => other

/-! Write the new content into the first CSP meta in preorder, the node
that soup.find located. -/

mutual
def setCspN (nc : String) (n : Node) : Node × Bool :=
  if isCspMeta n then (setContentAttr n nc, true)
  else
    match n with
    | .elem t a cs =>
      match setCspL nc cs with
      | (cs2, b) => (.elem t a cs2, b)
    | other => (other, false)
def setCspL (nc : String) : NodeList → NodeList × Bool
  | .nil => (.nil, false)
  | .cons n rest =>
    match setCspN nc n with
    | (n2, true) => (.cons n2 rest, true)
    | (_, false) =>
      match setCspL nc rest with
      | (rest2, b) => (.cons n rest2, b)
end

/-- Source lines 132-177, adjust_csp_meta: locate the first CSP meta; if
none or it lacks content, report unchanged; otherwise rewrite the content
string and write it back only when it differs character-for-character. -/
def adjustCspMeta (unescape : String → String) (l : NodeList) : Bool × NodeList :=
  match findFirstL isCspMeta l with
  | none => (false, l)
  | some m =>
    match getAttr (attrsOf m) "content" with
    | none => (false, l)
    | some raw =>
      let nc := newCspContent unescape raw
      if nc = raw then (false, l)
      else (true, (setCspL nc l).1)

/-! Source lines 186-188: extracting every comment node, which returns no
flag. -/

mutual
def removeCommentsN : Node → Node
  | .elem t a cs => .elem t a (removeCommentsL cs)
  | n => n
def removeCommentsL : NodeList → NodeList
  | .nil => .nil
  | .cons n rest =>
    if isCommentNode n then removeCommentsL rest
    else .cons (removeCommentsN n) (removeCommentsL rest)
end

/-! Counting helpers used to state the theorems. -/

mutual
def countCommentsN : Node → Nat
  | .elem _ _ cs => countCommentsL cs
  | .comment _ => 1
  | .text _ => 0
def countCommentsL : NodeList → Nat
  | .nil => 0
  | .cons n rest => countCommentsN n + countCommentsL rest
end

mutual
def countTagN (t0 : String) : Node → Nat
  | .elem t _ cs => (if t = t0 then 1 else 0) + countTagL t0 cs
  | _ => 0
def countTagL (t0 : String) : NodeList → Nat
  | .nil => 0
  | .cons n rest => countTagN t0 n + countTagL t0 rest
end

mutual
def anchorAttrsN : Node → List (List (String × String))
  | .elem t a cs => (if t = "a" then [a] else []) ++ anchorAttrsL cs
  | _ => []
def anchorAttrsL : NodeList → List (List (String × String))
  | .nil => []
  | .cons n rest => anchorAttrsN n ++ anchorAttrsL rest
end

/-- Source lines 180-198, process_file on the parsed tree: strip comments,
run the two mutators in order on the shared tree, and rewrite the file iff
either reported a change.  The returned Bool is the write decision. -/
def processTree (l : NodeList) : Bool × NodeList :=
  let l0 := removeCommentsL l
  match adjustBody l0 with
  | (b, l1) =>
    match adjustCspMeta htmlUnescapeModel l1 with
    | (c, l2) => (b || c, l2)


/-! ## The encoding resolver (read_file_smart, source lines 56-78)

UTF-8 decoding itself is the CPython bytes.decode('utf-8') codec, embedded
as an executable strict decoder and an errors='replace' decoder over byte
lists (code points are plain naturals).  The statistical detector and the
named legacy codecs are external collaborators (charset_normalizer or
chardet, bytes.decode(enc)); they enter as explicit function arguments
shaped the way the source consumes them: a detection result carrying an
optional encoding name and a confidence, and a fallible per-encoding
decode. -/

/-- Continuation byte test, 0x80-0xBF. -/
def isContByte (b : Nat) : Bool := 128 ≤ b && b ≤ 191

/-- Allowed second byte of a three-byte sequence led by b (RFC 3629 /
CPython table: E0 narrows to A0-BF, ED narrows to 80-9F excluding
surrogates). -/
def cont2Of3 (b b2 : Nat) : Bool :=
  if b = 224 then 160 ≤ b2 && b2 ≤ 191
  else if b = 237 then 128 ≤ b2 && b2 ≤ 159
  else isContByte b2

/-- Allowed second byte of a four-byte sequence led by b (F0 narrows to
90-BF, F4 narrows to 80-8F capping at U+10FFFF). -/
def cont2Of4 (b b2 : Nat) : Bool :=
  if b = 240 then 144 ≤ b2 && b2 ≤ 191
  else if b = 244 then 128 ≤ b2 && b2 ≤ 143
  else isContByte b2

/-- Strict UTF-8 decoding, raw.decode('utf-8'): none models the
UnicodeDecodeError of the source's first tier. -/
def utf8DecodeStrict : List Nat → Option (List Nat)
  | [] => some []
  | b :: rest =>
    if b ≤ 127 then
      match utf8DecodeStrict rest with
      | some t => some (b :: t)
      | none => none
    else if 194 ≤ b && b ≤ 223 then
      match rest with
      | b2 :: rest2 =>
        if isContByte b2 then
          match utf8DecodeStrict rest2 with
          | some t => some (((b - 192) * 64 + (b2 - 128)) :: t)
          | none => none
        else none
      | [] => none
    else if 224 ≤ b && b ≤ 239 then
      match rest with
      | b2 :: b3 :: rest3 =>
        if cont2Of3 b b2 && isContByte b3 then
          match utf8DecodeStrict rest3 with
          | some t => some (((b - 224) * 4096 + (b2 - 128) * 64 + (b3 - 128)) :: t)
          | none => none
        else none
      | _ => none
    else if 240 ≤ b && b ≤ 244 then
      match rest with
      | b2 :: b3 :: b4 :: rest4 =>
        if cont2Of4 b b2 && isContByte b3 && isContByte b4 then
          match utf8DecodeStrict rest4 with
          | some t =>
            some (((b - 240) * 262144 + (b2 - 128) * 4096 + (b3 - 128) * 64 + (b4 - 128)) :: t)
          | none => none
        else none
      | _ => none
    else none

/-- Lossy UTF-8 decoding pass; the fuel argument (initialised to the byte
count) only serves structural termination, every step consumes at least one
byte. -/
def utf8ReplaceFuel : Nat → List Nat → List Nat
  | 0, _ => []
  | _ + 1, [] => []
  | fuel + 1, b :: rest =>
    if b ≤ 127 then b :: utf8ReplaceFuel fuel rest
    else if 194 ≤ b && b ≤ 223 then
      match rest with
      | b2 :: rest2 =>
        if isContByte b2 then ((b - 192) * 64 + (b2 - 128)) :: utf8ReplaceFuel fuel rest2
        else 65533 :: utf8ReplaceFuel fuel rest
      | [] => [65533]
    else if 224 ≤ b && b ≤ 239 then
      match rest with
      | b2 :: rest2 =>
        if cont2Of3 b b2 then
          match rest2 with
          | b3 :: rest3 =>
            if isContByte b3 then
              ((b - 224) * 4096 + (b2 - 128) * 64 + (b3 - 128)) :: utf8ReplaceFuel fuel rest3
            else 65533 :: utf8ReplaceFuel fuel rest2
          | [] => [65533]
        else 65533 :: utf8ReplaceFuel fuel rest
      | [] => [65533]
    else if 240 ≤ b && b ≤ 244 then
      match rest with
      | b2 :: rest2 =>
        if cont2Of4 b b2 then
          match rest2 with
          | b3 :: rest3 =>
            if isContByte b3 then
              match rest3 with
              | b4 :: rest4 =>
                if isContByte b4 then
                  ((b - 240) * 262144 + (b2 - 128) * 4096 + (b3 - 128) * 64 + (b4 - 128)) ::
                    utf8ReplaceFuel fuel rest4
                else 65533 :: utf8ReplaceFuel fuel rest3
              | [] => [65533]
            else 65533 :: utf8ReplaceFuel fuel rest2
          | [] => [65533]
        else 65533 :: utf8ReplaceFuel fuel rest
      | [] => [65533]
    else 65533 :: utf8ReplaceFuel fuel rest

/-- Lossy UTF-8 decoding, raw.decode('utf-8', errors='replace'): each
maximal invalid subpart becomes one U+FFFD (65533), following CPython's
replacement policy. -/
def utf8DecodeReplace (raw : List Nat) : List Nat := utf8ReplaceFuel raw.length raw

/-- Shape of the detector result as the source consumes it:
result.get('encoding') and result.get('confidence', 0). -/
structure DetectResult where
  encoding : Option String
  confidence : Rat

/-- Source lines 56-78, read_file_smart on raw bytes, parametric in the
optional detector and in the named-codec collaborator.  Tier 1: strict
UTF-8.  Tier 2: when a detector exists, its guess is accepted only if the
encoding is present and non-empty, the confidence exceeds 0.5, and the
decode succeeds (the try/except around raw.decode(enc)).  Tier 3: lossy
replacement.  The function is total: no exception escapes. -/
def readFileSmart (detect : Option (List Nat → DetectResult))
    (codec : String → List Nat → Option (List Nat)) (raw : List Nat) : List Nat :=
  match utf8DecodeStrict raw with
  | some t => t
  | none =>
    match detect with
    | none => utf8DecodeReplace raw
    | some det =>
      match (det raw).encoding with
      | none => utf8DecodeReplace raw
      | some enc =>
        if enc ≠ "" ∧ (det raw).confidence > 1/2 then
          match codec enc raw with
          | some t => t
          | none => utf8DecodeReplace raw
        else utf8DecodeReplace raw

/-! ## Concrete documents and collaborators used by witnesses and
counterexamples -/

/-- The end-to-end input of the spec: body containing one anchor without a
target, no script, no CSP meta. -/
def c1Doc : NodeList :=
  nlOf [Node.elem "body" []
    (nlOf [Node.elem "a" [("href", "x")] (nlOf [Node.text "l"])])]

/-- A document whose only script carries src "/preview.js\n": not
case-insensitively equal to the preview path, yet matched by the anchored
regex because the final dollar also matches before one trailing newline. -/
def c6CeDoc : NodeList :=
  nlOf [Node.elem "body" []
    (nlOf [Node.elem "script" [("src", "/preview.js\n")] NodeList.nil])]

/-- Script-matching as the spec words it: the src attribute
case-insensitively equals the fixed preview script path.  This refinement
definition follows the spec, to be compared with isPreviewScript from the
source. -/
def isPreviewScriptSpec : Node → Bool
  | .elem t a _ =>
    t = "script" &&
      (match getAttr a "src" with
       | some v => strLower v = "/preview.js"
       | none => false)
  | _ => false

/-- The C6 claim as stated, at one document: a document with a
case-insensitively equal script src anywhere is reported unchanged and
untouched, any other document is reported changed. -/
def c6ClaimAt (l : NodeList) : Prop :=
  ((findFirstL isPreviewScriptSpec l).isSome = true → ensureScript l = (false, l)) ∧
  ((findFirstL isPreviewScriptSpec l).isSome = false → (ensureScript l).1 = true)

/-- A body document with no script, used by the C6 witness. -/
def c6Doc : NodeList :=
  nlOf [Node.elem "html" [] (nlOf [Node.elem "body" [] (nlOf [Node.text "hi"])])]

/-- Two anchors, one without target and one with, used by the C7 witness. -/
def c7Doc : NodeList :=
  nlOf [Node.elem "a" [("href", "u")] NodeList.nil,
    Node.elem "a" [("target", "x"), ("href", "v")] NodeList.nil]

/-- A CSP meta whose content already conforms, used by the C4 witness. -/
def c4Meta : Node :=
  Node.elem "meta"
    [("http-equiv", "Content-Security-Policy"),
     ("content", "script-src 'self' https://x.com")] NodeList.nil

/-- The C4 witness document. -/
def c4Doc : NodeList := nlOf [c4Meta]

/-- A document containing a comment that also already conforms to all three
transforms, used by the C10 witness. -/
def c10Doc : NodeList :=
  nlOf [Node.elem "body" [] (nlOf [newScriptTag, Node.comment "c"])]

/-- A detector reporting a fixed high-confidence encoding, used by the C8
witness. -/
def detExample : List Nat → DetectResult := fun _ => ⟨some "latin-1", 9/10⟩

/-- A codec collaborator mapping each byte to the equally numbered code
point, which is exactly the latin-1 decode, used by the C8 witness. -/
def codecLatin : String → List Nat → Option (List Nat) := fun _ bs => some bs


/-! ## Helper lemmas -/

/-- The entity spelling of the apostrophe contains no apostrophe, so the
blanket post-pass leaves none behind. -/
theorem replaceAposL_no_apos : (l : List Char) → aposChar ∉ replaceAposL l
  | [] => by simp [replaceAposL]
  | c :: rest => by
    by_cases h : c = aposChar
    · rw [replaceAposL, if_pos h]
      intro hmem
      rcases List.mem_append.1 hmem with h1 | h2
      · exact absurd h1 (by decide)
      · exact replaceAposL_no_apos rest h2
    · rw [replaceAposL, if_neg h]
      intro hmem
      rcases List.mem_cons.1 hmem with h1 | h2
      · exact h h1.symm
      · exact replaceAposL_no_apos rest h2

/-- A directive taking the else branch of the loop is emitted unchanged, so
a list with no script-src directive maps to itself. -/
theorem map_rewrite_id : (l : List String) →
    (∀ d ∈ l, isScriptSrcDirective d = false) → l.map rewriteDirective = l
  | [], _ => rfl
  | d :: ds, h => by
    have hd : isScriptSrcDirective d = false := h d (by simp)
    have ih := map_rewrite_id ds (fun x hx => h x (by simp [hx]))
    simp [rewriteDirective, hd, ih]

/-! ## C3 -/

/-- C3: for every CSP attribute value whose original, pre-unescape text
contains the numeric apostrophe entity, the rewritten value is the joined
directive string with every literal apostrophe replaced by the entity in
one post-pass after all joining, and no literal apostrophe remains in it;
when the original contains no such entity, no replacement is performed and
the rewritten value is the joined string itself.  Proved for an arbitrary
unescape collaborator. -/
theorem c3_entity_quote_style (unescape : String → String) (raw : String) :
    (hasEntityApos raw = true →
      newCspContent unescape raw =
        replaceApos (String.intercalate "; " (newDirectives (parseDirectives (unescape raw)))) ∧
      aposChar ∉ (newCspContent unescape raw).data) ∧
    (hasEntityApos raw = false →
      newCspContent unescape raw =
        String.intercalate "; " (newDirectives (parseDirectives (unescape raw)))) := by
  constructor
  · intro h
    constructor
    · simp [newCspContent, h, replaceApos]
    · simp only [newCspContent, h, if_pos]
      exact replaceAposL_no_apos _
  · intro h
    simp [newCspContent, h]

/-- C3 witness at the spec's entity-styled input. -/
theorem c3_witness :
    hasEntityApos "default-src &#39;none&#39;" = true ∧
    newCspContent htmlUnescapeModel "default-src &#39;none&#39;" =
      "default-src &#39;none&#39;; script-src &#39;self&#39;" ∧
    aposChar ∉ (newCspContent htmlUnescapeModel "default-src &#39;none&#39;").data := by
  refine ⟨by decide, by decide, ?_⟩
  exact ((c3_entity_quote_style htmlUnescapeModel "default-src &#39;none&#39;").1 (by decide)).2

/-! ## C5 -/

/-- C5: when the directive list parsed from the unescaped value contains no
directive starting case-insensitively with script-src, the rewrite appends
exactly one new directive, script-src 'self', at the end, preserving all
other directives in their original order; and the directive list is
obtained by splitting the unescaped value on semicolons, stripping
whitespace and discarding empty segments. -/
theorem c5_append_when_missing (unescape : String → String) (raw : String)
    (h : (parseDirectives (unescape raw)).all (fun d => !isScriptSrcDirective d) = true) :
    newDirectives (parseDirectives (unescape raw)) =
      parseDirectives (unescape raw) ++ ["script-src 'self'"] ∧
    parseDirectives (unescape raw) =
      ((splitSemi (unescape raw)).map pyStrip).filter (fun d => d ≠ "") := by
  refine ⟨?_, rfl⟩
  have hall : ∀ d ∈ parseDirectives (unescape raw), isScriptSrcDirective d = false := by
    intro d hd
    have := List.all_eq_true.1 h d hd
    simpa using this
  have hany : (parseDirectives (unescape raw)).any isScriptSrcDirective = false := by
    rw [List.any_eq_false]
    intro d hd
    simp [hall d hd]
  rw [newDirectives, hany]
  simp [map_rewrite_id _ hall]

/-- C5 witness at the spec's example input. -/
theorem c5_witness :
    (parseDirectives (htmlUnescapeModel "default-src 'none'")).all
      (fun d => !isScriptSrcDirective d) = true ∧
    newDirectives (parseDirectives (htmlUnescapeModel "default-src 'none'")) =
      ["default-src 'none'", "script-src 'self'"] := by
  refine ⟨by decide, ?_⟩
  have h := (c5_append_when_missing htmlUnescapeModel "default-src 'none'" (by decide)).1
  rw [h]
  decide

/-! ## C4 -/

/-- C4: a script-src directive whose tokens already include self under
quote-stripped comparison is re-emitted with its token sequence unchanged,
single-space joined; at the document level the mutator reports changed
exactly when the newly serialized content differs character-for-character
from the original raw attribute value, and leaves the document untouched
otherwise.  Proved for an arbitrary unescape collaborator. -/
theorem c4_conformant_roundtrip (unescape : String → String) :
    (∀ raw d, d ∈ parseDirectives (unescape raw) → isScriptSrcDirective d = true →
      sourcesHaveSelf (pySplitWs d).tail = true →
      rewriteDirective d = "script-src " ++ String.intercalate " " (pySplitWs d).tail) ∧
    (∀ (l : NodeList) (m : Node) (raw : String),
      findFirstL isCspMeta l = some m →
      getAttr (attrsOf m) "content" = some raw →
      ((adjustCspMeta unescape l).1 = true ↔ newCspContent unescape raw ≠ raw) ∧
      (newCspContent unescape raw = raw → adjustCspMeta unescape l = (false, l))) := by
  constructor
  · intro raw d _ h2 h3
    simp [rewriteDirective, h2, rewriteScriptSrc, h3]
  · intro l m raw hf hc
    by_cases hv : newCspContent unescape raw = raw
    · refine ⟨by simp [adjustCspMeta, hf, hc, hv], fun _ => by simp [adjustCspMeta, hf, hc, hv]⟩
    · refine ⟨by simp [adjustCspMeta, hf, hc, hv], fun h => absurd h hv⟩

/-- C4 witness at the spec's already-conformant content. -/
theorem c4_witness :
    sourcesHaveSelf (pySplitWs "script-src 'self' https://x.com").tail = true ∧
    rewriteDirective "script-src 'self' https://x.com" = "script-src 'self' https://x.com" ∧
    adjustCspMeta htmlUnescapeModel c4Doc = (false, c4Doc) := by
  refine ⟨by decide, ?_, ?_⟩
  · have h := (c4_conformant_roundtrip htmlUnescapeModel).1 "script-src 'self' https://x.com"
      "script-src 'self' https://x.com" (by decide) (by decide) (by decide)
    rw [h]
    decide
  · exact ((c4_conformant_roundtrip htmlUnescapeModel).2 c4Doc c4Meta
      "script-src 'self' https://x.com" rfl rfl).2 (by decide)

/-! ## C9 -/

/-- C9: a directive whose name merely starts with script-src
case-insensitively is treated as the script-src directive: the directive
string then satisfies the loop's branch test, its tokens are checked for
self and it is re-emitted under the literal lowercase name script-src, so
neither the original case nor any name suffix survives; and since the
branch sets the found flag, no separate script-src 'self' directive is
appended when such a directive is present. -/
theorem c9_prefix_directive_collapses :
    (∀ name rest : String, strStartsWith (strLower name) "script-src" = true →
      isScriptSrcDirective (name ++ " " ++ rest) = true ∧
      isScriptSrcDirective name = true) ∧
    (∀ d : String, isScriptSrcDirective d = true →
      rewriteDirective d =
        "script-src " ++ String.intercalate " "
          (if sourcesHaveSelf (pySplitWs d).tail then (pySplitWs d).tail
           else (pySplitWs d).tail ++ ["'self'"]) ∧
      strStartsWith (rewriteDirective d) "script-src" = true) ∧
    (∀ dirs : List String, dirs.any isScriptSrcDirective = true →
      newDirectives dirs = dirs.map rewriteDirective ∧
      (newDirectives dirs).length = dirs.length) := by
  refine ⟨?_, ?_, ?_⟩
  · intro name rest h
    have hpre : "script-src".data <+: (strLower name).data :=
      List.isPrefixOf_iff_prefix.1 h
    constructor
    · rw [isScriptSrcDirective, strStartsWith, List.isPrefixOf_iff_prefix]
      have hdata : (strLower (name ++ " " ++ rest)).data =
          (strLower name).data ++ ((" " ++ rest).data.map lowerChar) := by
        simp [strLower, String.data_append]
      rw [hdata]
      exact hpre.trans (List.prefix_append _ _)
    · exact h
  · intro d h
    refine ⟨by simp [rewriteDirective, h, rewriteScriptSrc], ?_⟩
    have hd : rewriteDirective d =
        "script-src " ++ String.intercalate " "
          (if sourcesHaveSelf (pySplitWs d).tail then (pySplitWs d).tail
           else (pySplitWs d).tail ++ ["'self'"]) := by
      simp [rewriteDirective, h, rewriteScriptSrc]
    rw [hd, strStartsWith, List.isPrefixOf_iff_prefix, String.data_append]
    have hsp : "script-src ".data = "script-src".data ++ [' '] := by decide
    rw [hsp, List.append_assoc]
    exact List.prefix_append _ _
  · intro dirs h
    refine ⟨by simp [newDirectives, h], by simp [newDirectives, h]⟩

/-- C9 witness at a suffixed name and at an upper-case name. -/
theorem c9_witness :
    isScriptSrcDirective "script-src-elem https://x" = true ∧
    rewriteDirective "script-src-elem https://x" = "script-src https://x 'self'" ∧
    rewriteDirective "SCRIPT-SRC 'self'" = "script-src 'self'" ∧
    newDirectives ["script-src-elem https://x"] = ["script-src https://x 'self'"] := by
  have h2 := (c9_prefix_directive_collapses.2.1 "script-src-elem https://x" (by decide)).1
  have h3 := (c9_prefix_directive_collapses.2.1 "SCRIPT-SRC 'self'" (by decide)).1
  have h4 := (c9_prefix_directive_collapses.2.2 ["script-src-elem https://x"] (by decide)).1
  refine ⟨by decide, ?_, ?_, ?_⟩
  · rw [h2]; decide
  · rw [h3]; decide
  · rw [h4]; decide

/-! ## C8 -/

/-- C8: the encoding resolver is a total function of its input (no
exception escapes) whose result is settled by a three-tier cascade: the
strict UTF-8 decoding when it succeeds; otherwise the detector-guessed
decoding exactly when a detector exists, it reports a non-empty encoding
with confidence above one half, and that decoding succeeds; and the lossy
replacement decoding in every remaining case. -/
theorem c8_three_tier (detect : Option (List Nat → DetectResult))
    (codec : String → List Nat → Option (List Nat)) (raw : List Nat) :
    (∀ t, utf8DecodeStrict raw = some t → readFileSmart detect codec raw = t) ∧
    (utf8DecodeStrict raw = none → detect = none →
      readFileSmart detect codec raw = utf8DecodeReplace raw) ∧
    (∀ det e c t, utf8DecodeStrict raw = none → detect = some det →
      det raw = ⟨some e, c⟩ → e ≠ "" → c > 1/2 → codec e raw = some t →
      readFileSmart detect codec raw = t) ∧
    (∀ det e c, utf8DecodeStrict raw = none → detect = some det →
      det raw = ⟨some e, c⟩ → e ≠ "" → c > 1/2 → codec e raw = none →
      readFileSmart detect codec raw = utf8DecodeReplace raw) ∧
    (∀ det e c, utf8DecodeStrict raw = none → detect = some det →
      det raw = ⟨some e, c⟩ → (e = "" ∨ ¬ c > 1/2) →
      readFileSmart detect codec raw = utf8DecodeReplace raw) ∧
    (∀ det, utf8DecodeStrict raw = none → detect = some det →
      (det raw).encoding = none →
      readFileSmart detect codec raw = utf8DecodeReplace raw) := by
  refine ⟨?_, ?_, ?_, ?_, ?_, ?_⟩
  · intro t h
    simp [readFileSmart, h]
  · intro h1 h2
    simp [readFileSmart, h1, h2]
  · intro det e c t h1 h2 h3 h4 h5 h6
    simp only [readFileSmart, h1, h2, h3]
    rw [if_pos (show e ≠ "" ∧ c > 1/2 from ⟨h4, h5⟩)]
    simp [h6]
  · intro det e c h1 h2 h3 h4 h5 h6
    simp only [readFileSmart, h1, h2, h3]
    rw [if_pos (show e ≠ "" ∧ c > 1/2 from ⟨h4, h5⟩)]
    simp [h6]
  · intro det e c h1 h2 h3 h4
    simp only [readFileSmart, h1, h2, h3]
    rw [if_neg (show ¬ (e ≠ "" ∧ c > 1/2) from ?_)]
    rcases h4 with h4 | h4
    · exact fun hx => hx.1 h4
    · exact fun hx => h4 hx.2
  · intro det h1 h2 h3
    simp [readFileSmart, h1, h2, h3]

/-- C8 witness: a byte pair that is not UTF-8, resolved through the
detector tier with the identity latin-1 codec. -/
theorem c8_witness :
    utf8DecodeStrict [195, 40] = none ∧
    readFileSmart (some detExample) codecLatin [195, 40] = [195, 40] := by
  refine ⟨by decide, ?_⟩
  exact (c8_three_tier (some detExample) codecLatin [195, 40]).2.2.1 detExample
    "latin-1" (9/10) [195, 40] (by decide) rfl rfl (by decide) (by norm_num) rfl

/-! ## Attribute lemmas -/

/-- Lookup distributes over append: the left list wins. -/
theorem getAttr_append_or (a b : List (String × String)) (k : String) :
    getAttr (a ++ b) k =
      match getAttr a k with
      | some v => some v
      | none => getAttr b k := by
  induction a with
  | nil => simp [getAttr]
  | cons p rest ih =>
    by_cases h : p.1 = k
    · simp [getAttr, List.find?, h]
    · simpa [getAttr, List.find?, h] using ih

/-- The in-place update branch of setAttr: looking up the updated key. -/
theorem getAttr_map_update (a : List (String × String)) (k v : String) :
    getAttr (a.map (fun p => if p.1 = k then (k, v) else p)) k =
      match getAttr a k with
      | some _ => some v
      | none => none := by
  induction a with
  | nil => simp [getAttr]
  | cons p rest ih =>
    by_cases h : p.1 = k
    · simp [getAttr, List.find?, h]
    · simpa [getAttr, List.find?, h] using ih

/-- The in-place update branch of setAttr leaves other keys alone. -/
theorem getAttr_map_update_other (a : List (String × String)) (k v k2 : String)
    (hne : k2 ≠ k) :
    getAttr (a.map (fun p => if p.1 = k then (k, v) else p)) k2 = getAttr a k2 := by
  induction a with
  | nil => rfl
  | cons p rest ih =>
    have hkk2 : ¬ k = k2 := fun hh => hne hh.symm
    by_cases h : p.1 = k
    · have hp2 : ¬ p.1 = k2 := by rw [h]; exact hkk2
      simpa [getAttr, List.find?, h, hp2, hkk2] using ih
    · by_cases h2 : p.1 = k2
      · simp only [List.map_cons, if_neg h]
        simp [getAttr, List.find?, h2]
      · simpa [getAttr, List.find?, h, h2] using ih

/-- Writing an attribute makes it readable with the written value. -/
theorem getAttr_setAttr_self (a : List (String × String)) (k v : String) :
    getAttr (setAttr a k v) k = some v := by
  by_cases h : hasAttrB a k = true
  · rw [setAttr, if_pos h, getAttr_map_update]
    rcases hg : getAttr a k with _ | w
    · rw [hasAttrB, hg] at h
      simp at h
    · simp
  · rw [setAttr, if_neg h, getAttr_append_or]
    have hg : getAttr a k = none := by
      rcases hg : getAttr a k with _ | w
      · rfl
      · rw [hasAttrB, hg] at h
        simp at h
    rw [hg]
    simp [getAttr, List.find?]

/-- Writing an attribute leaves all other keys unchanged. -/
theorem getAttr_setAttr_other (a : List (String × String)) (k v k2 : String)
    (hne : k2 ≠ k) :
    getAttr (setAttr a k v) k2 = getAttr a k2 := by
  by_cases h : hasAttrB a k = true
  · rw [setAttr, if_pos h]
    exact getAttr_map_update_other a k v k2 hne
  · rw [setAttr, if_neg h, getAttr_append_or]
    have hkk2 : ¬ k = k2 := fun hh => hne hh.symm
    rcases hg : getAttr a k2 with _ | w
    · simp [getAttr, List.find?, hkk2]
    · simp

/-- The two writes of the link-hardening branch as read back. -/
theorem hardenAttrs_target (a : List (String × String)) :
    getAttr (hardenAttrs a) "target" = some "_blank" ∧
    getAttr (hardenAttrs a) "rel" = some "noopener noreferrer" := by
  constructor
  · rw [hardenAttrs, getAttr_setAttr_other _ _ _ _ (by decide)]
    exact getAttr_setAttr_self _ _ _
  · exact getAttr_setAttr_self _ _ _

/-! ## Induction lemmas for link hardening and comment stripping -/

mutual
theorem addTargetN_spec : (n : Node) →
    anchorAttrsN (addTargetN n).1 =
      (anchorAttrsN n).map (fun a => if hasAttrB a "target" then a else hardenAttrs a) ∧
    (addTargetN n).2 = (anchorAttrsN n).any (fun a => !hasAttrB a "target")
  | .elem t a cs => by
    have ih := addTargetL_spec cs
    rcases hcs : addTargetL cs with ⟨cs2, cb⟩
    rw [hcs] at ih
    by_cases ht : t = "a"
    · by_cases ha : hasAttrB a "target" = true
      · simp [addTargetN, hcs, ht, ha, anchorAttrsN, ih.1, ih.2]
      · simp [addTargetN, hcs, ht, ha, anchorAttrsN, ih.1, ih.2]
    · simp [addTargetN, hcs, ht, anchorAttrsN, ih.1, ih.2]
  | .text s => by simp [addTargetN, anchorAttrsN]
  | .comment s => by simp [addTargetN, anchorAttrsN]
theorem addTargetL_spec : (l : NodeList) →
    anchorAttrsL (addTargetL l).1 =
      (anchorAttrsL l).map (fun a => if hasAttrB a "target" then a else hardenAttrs a) ∧
    (addTargetL l).2 = (anchorAttrsL l).any (fun a => !hasAttrB a "target")
  | .nil => by simp [addTargetL, anchorAttrsL]
  | .cons n rest => by
    have ihn := addTargetN_spec n
    have ihl := addTargetL_spec rest
    rcases hn : addTargetN n with ⟨n2, b1⟩
    rcases hr : addTargetL rest with ⟨rest2, b2⟩
    rw [hn] at ihn
    rw [hr] at ihl
    simp [addTargetL, hn, hr, anchorAttrsL, ihn.1, ihn.2, ihl.1, ihl.2,
      List.map_append, List.any_append]
end

mutual
theorem countComments_removeN : (n : Node) →
    countCommentsN (removeCommentsN n) = if isCommentNode n then 1 else 0
  | .elem t a cs => by
    simp [removeCommentsN, countCommentsN, isCommentNode, countComments_removeL cs]
  | .text s => by simp [removeCommentsN, countCommentsN, isCommentNode]
  | .comment s => by simp [removeCommentsN, countCommentsN, isCommentNode]
theorem countComments_removeL : (l : NodeList) →
    countCommentsL (removeCommentsL l) = 0
  | .nil => by simp [removeCommentsL, countCommentsL]
  | .cons n rest => by
    by_cases h : isCommentNode n = true
    · simp [removeCommentsL, h, countComments_removeL rest]
    · simp [removeCommentsL, h, countCommentsL, countComments_removeN n,
        countComments_removeL rest]
end

/-! ## C7 -/

/-- C7: link hardening leaves every anchor that already has a target
attribute untouched, gives every other anchor target equal to _blank and
rel equal to noopener noreferrer, and reports changed exactly when at least
one anchor lacked a target. -/
theorem c7_link_hardening (l : NodeList) :
    (addTargetBlank l).1 = (anchorAttrsL l).any (fun a => !hasAttrB a "target") ∧
    anchorAttrsL (addTargetBlank l).2 =
      (anchorAttrsL l).map (fun a => if hasAttrB a "target" then a else hardenAttrs a) ∧
    (∀ a : List (String × String), hasAttrB a "target" = false →
      getAttr (hardenAttrs a) "target" = some "_blank" ∧
      getAttr (hardenAttrs a) "rel" = some "noopener noreferrer") := by
  have h := addTargetL_spec l
  rcases ha : addTargetL l with ⟨l2, b⟩
  rw [ha] at h
  refine ⟨?_, ?_, ?_⟩
  · simp [addTargetBlank, ha, h.2]
  · simp [addTargetBlank, ha, h.1]
  · intro a _
    exact hardenAttrs_target a

/-- C7 witness: one bare anchor is hardened, one anchor with a target is
left untouched, and the pass reports changed. -/
theorem c7_witness :
    (addTargetBlank c7Doc).1 = true ∧
    anchorAttrsL (addTargetBlank c7Doc).2 =
      [[("href", "u"), ("target", "_blank"), ("rel", "noopener noreferrer")],
       [("target", "x"), ("href", "v")]] ∧
    getAttr (hardenAttrs [("href", "u")]) "target" = some "_blank" := by
  have h := c7_link_hardening c7Doc
  refine ⟨?_, ?_, (h.2.2 [("href", "u")] (by decide)).1⟩
  · rw [h.1]
    decide
  · rw [h.2.1]
    decide

/-! ## C10 -/

/-- C10: every comment node is stripped from the tree before the mutators
run, comment removal contributes no change flag, and the file is rewritten
exactly when one of the two mutators reports a change on the comment-free
tree — so a file whose transforms all report unchanged is not rewritten
even when it contained comments. -/
theorem c10_comment_stripping (l : NodeList) :
    countCommentsL (removeCommentsL l) = 0 ∧
    (processTree l).1 =
      ((adjustBody (removeCommentsL l)).1 ||
       (adjustCspMeta htmlUnescapeModel (adjustBody (removeCommentsL l)).2).1) ∧
    ((adjustBody (removeCommentsL l)).1 = false →
      (adjustCspMeta htmlUnescapeModel (adjustBody (removeCommentsL l)).2).1 = false →
      (processTree l).1 = false) := by
  rcases h1 : adjustBody (removeCommentsL l) with ⟨b, l1⟩
  rcases h2 : adjustCspMeta htmlUnescapeModel l1 with ⟨c, l2⟩
  refine ⟨countComments_removeL l, ?_, ?_⟩
  · simp [processTree, h1, h2]
  · intro hb hcsp
    have hb2 : b = false := hb
    have hc2 : c = false := hcsp
    simp [processTree, h1, h2, hb2, hc2]

/-- C10 witness: a document containing a comment whose three transforms all
report unchanged is not rewritten. -/
theorem c10_witness :
    countCommentsL c10Doc = 1 ∧
    (processTree c10Doc).1 = false := by
  refine ⟨by decide, ?_⟩
  exact (c10_comment_stripping c10Doc).2.2 (by decide) (by decide)

/-! ## Induction lemmas for script injection -/

/-- Counting a tag distributes over list concatenation. -/
theorem countTag_nlAppend (t0 : String) : (l1 l2 : NodeList) →
    countTagL t0 (nlAppend l1 l2) = countTagL t0 l1 + countTagL t0 l2
  | .nil, l2 => by simp [nlAppend, countTagL]
  | .cons n rest, l2 => by
    simp [nlAppend, countTagL, countTag_nlAppend t0 rest l2]
    omega

mutual
theorem findFirstN_sat (p : Node → Bool) : (n : Node) → ∀ r, findFirstN p n = some r → p r = true
  | .elem t a cs => by
    intro r h
    simp only [findFirstN] at h
    by_cases hp : p (Node.elem t a cs) = true
    · rw [if_pos hp] at h
      injection h with h
      subst h
      exact hp
    · rw [if_neg hp] at h
      exact findFirstL_sat p cs r h
  | .text s => by
    intro r h
    simp only [findFirstN] at h
    by_cases hp : p (Node.text s) = true
    · rw [if_pos hp] at h
      injection h with h
      subst h
      exact hp
    · rw [if_neg hp] at h
      exact Option.noConfusion h
  | .comment s => by
    intro r h
    simp only [findFirstN] at h
    by_cases hp : p (Node.comment s) = true
    · rw [if_pos hp] at h
      injection h with h
      subst h
      exact hp
    · rw [if_neg hp] at h
      exact Option.noConfusion h
theorem findFirstL_sat (p : Node → Bool) : (l : NodeList) → ∀ r, findFirstL p l = some r → p r = true
  | .nil => by
    intro r h
    simp [findFirstL] at h
  | .cons n rest => by
    intro r h
    simp only [findFirstL] at h
    rcases hfn : findFirstN p n with _ | r2
    · rw [hfn] at h
      exact findFirstL_sat p rest r h
    · rw [hfn] at h
      injection h with h
      subst h
      exact findFirstN_sat p n _ hfn
end

mutual
theorem appendBodyN_spec : (n : Node) →
    (∀ t a cs, findFirstN isBody n = some (Node.elem t a cs) →
      (appendBodyN n).2 = true ∧
      findFirstN isBody (appendBodyN n).1 =
        some (Node.elem t a (nlAppend cs (NodeList.cons newScriptTag NodeList.nil))) ∧
      countTagN "script" (appendBodyN n).1 = countTagN "script" n + 1) ∧
    (findFirstN isBody n = none → appendBodyN n = (n, false))
  | .elem t a cs => by
    have ih := appendBodyL_spec cs
    by_cases ht : t = "body"
    · have hb : isBody (Node.elem t a cs) = true := by simp [isBody, ht]
      constructor
      · intro t2 a2 cs2 hf
        simp only [findFirstN] at hf
        rw [if_pos hb] at hf
        injection hf with hf
        injection hf with het hea hec
        subst het
        subst hea
        subst hec
        have happ : appendBodyN (Node.elem t a cs) =
            (Node.elem t a (nlAppend cs (NodeList.cons newScriptTag NodeList.nil)), true) := by
          simp only [appendBodyN, if_pos ht]
        rw [happ]
        refine ⟨rfl, ?_, ?_⟩
        · simp only [findFirstN]
          rw [if_pos (show isBody (Node.elem t a
            (nlAppend cs (NodeList.cons newScriptTag NodeList.nil))) = true by simp [isBody, ht])]
        · subst ht
          simp [countTagN, countTag_nlAppend, countTagL, newScriptTag]
      · intro hf
        simp only [findFirstN] at hf
        rw [if_pos hb] at hf
        exact Option.noConfusion hf
    · have hb : ¬ isBody (Node.elem t a cs) = true := by simp [isBody, ht]
      constructor
      · intro t2 a2 cs2 hf
        simp only [findFirstN] at hf
        rw [if_neg hb] at hf
        have ihs := ih.1 t2 a2 cs2 hf
        rcases hcs : appendBodyL cs with ⟨csx, bx⟩
        rw [hcs] at ihs
        have hbx : bx = true := ihs.1
        subst hbx
        have happ : appendBodyN (Node.elem t a cs) = (Node.elem t a csx, true) := by
          simp only [appendBodyN, if_neg ht, hcs]
        rw [happ]
        refine ⟨rfl, ?_, ?_⟩
        · simp only [findFirstN]
          rw [if_neg (show ¬ isBody (Node.elem t a csx) = true by simp [isBody, ht])]
          exact ihs.2.1
        · have hcount := ihs.2.2
          simp only at hcount
          simp [countTagN, hcount]
          omega
      · intro hf
        simp only [findFirstN] at hf
        rw [if_neg hb] at hf
        have ihs := ih.2 hf
        simp only [appendBodyN, if_neg ht, ihs]
  | .text s => by
    constructor
    · intro t2 a2 cs2 hf
      simp [findFirstN, isBody] at hf
    · intro _
      rfl
  | .comment s => by
    constructor
    · intro t2 a2 cs2 hf
      simp [findFirstN, isBody] at hf
    · intro _
      rfl
theorem appendBodyL_spec : (l : NodeList) →
    (∀ t a cs, findFirstL isBody l = some (Node.elem t a cs) →
      (appendBodyL l).2 = true ∧
      findFirstL isBody (appendBodyL l).1 =
        some (Node.elem t a (nlAppend cs (NodeList.cons newScriptTag NodeList.nil))) ∧
      countTagL "script" (appendBodyL l).1 = countTagL "script" l + 1) ∧
    (findFirstL isBody l = none → appendBodyL l = (l, false))
  | .nil => by
    constructor
    · intro t2 a2 cs2 hf
      simp [findFirstL] at hf
    · intro _
      rfl
  | .cons n rest => by
    have ihn := appendBodyN_spec n
    have ihl := appendBodyL_spec rest
    constructor
    · intro t2 a2 cs2 hf
      simp only [findFirstL] at hf
      rcases hfn : findFirstN isBody n with _ | r
      · rw [hfn] at hf
        have hnf := ihn.2 hfn
        have ihs := ihl.1 t2 a2 cs2 hf
        rcases hrest : appendBodyL rest with ⟨restx, bx⟩
        rw [hrest] at ihs
        have hbx : bx = true := ihs.1
        subst hbx
        have happ : appendBodyL (NodeList.cons n rest) = (NodeList.cons n restx, true) := by
          simp only [appendBodyL, hnf, hrest]
        rw [happ]
        refine ⟨rfl, ?_, ?_⟩
        · simp only [findFirstL]
          rw [hfn]
          exact ihs.2.1
        · have hcount := ihs.2.2
          simp only at hcount
          simp [countTagL, hcount]
          omega
      · rw [hfn] at hf
        injection hf with hf
        subst hf
        have ihs := ihn.1 t2 a2 cs2 hfn
        rcases hn2 : appendBodyN n with ⟨n2, bb⟩
        rw [hn2] at ihs
        have hbb : bb = true := ihs.1
        subst hbb
        have happ : appendBodyL (NodeList.cons n rest) = (NodeList.cons n2 rest, true) := by
          simp only [appendBodyL, hn2]
        rw [happ]
        refine ⟨rfl, ?_, ?_⟩
        · have hfn2 := ihs.2.1
          simp only at hfn2
          simp only [findFirstL]
          rw [hfn2]
        · have hcount := ihs.2.2
          simp only at hcount
          simp [countTagL, hcount]
          omega
    · intro hf
      simp only [findFirstL] at hf
      rcases hfn : findFirstN isBody n with _ | r
      · rw [hfn] at hf
        have h1 := ihn.2 hfn
        have h2 := ihl.2 hf
        simp only [appendBodyL, h1, h2]
      · rw [hfn] at hf
        exact Option.noConfusion hf
end

/-! ## C6 -/

/-- C6 as amended: the guard accepts a script whose src matches the
anchored case-insensitive regex, which equals the preview path
case-insensitively either exactly or followed by one trailing newline (not
equality alone as the claim words it).  With a match anywhere the operation
reports unchanged and leaves the document untouched; otherwise it reports
changed and appends exactly one new script element, as last child of the
first body element when one exists, else as last child of the document
root. -/
theorem c6_script_injection (l : NodeList) :
    ((findFirstL isPreviewScript l).isSome = true → ensureScript l = (false, l)) ∧
    ((findFirstL isPreviewScript l).isSome = false →
      (ensureScript l).1 = true ∧
      countTagL "script" (ensureScript l).2 = countTagL "script" l + 1 ∧
      (∀ t a cs, findFirstL isBody l = some (Node.elem t a cs) →
        findFirstL isBody (ensureScript l).2 =
          some (Node.elem t a (nlAppend cs (NodeList.cons newScriptTag NodeList.nil)))) ∧
      (findFirstL isBody l = none →
        (ensureScript l).2 = nlAppend l (NodeList.cons newScriptTag NodeList.nil))) := by
  constructor
  · intro h
    rw [ensureScript, if_pos h]
  · intro h
    have h2 : ¬ (findFirstL isPreviewScript l).isSome = true := by simp [h]
    by_cases hb : (findFirstL isBody l).isSome = true
    · rcases hfb : findFirstL isBody l with _ | r
      · rw [hfb] at hb
        simp at hb
      · have hr := findFirstL_sat isBody l r hfb
        cases r with
        | elem t a cs =>
          have spec := (appendBodyL_spec l).1 t a cs hfb
          rcases happ : appendBodyL l with ⟨l2, bb⟩
          rw [happ] at spec
          have hes : ensureScript l = (true, l2) := by
            rw [ensureScript, if_neg h2, if_pos hb, happ]
          rw [hes]
          refine ⟨rfl, ?_, ?_, ?_⟩
          · exact spec.2.2
          · intro t3 a3 cs3 hf3
            injection hf3 with hf3
            injection hf3 with he1 he2 he3
            subst he1
            subst he2
            subst he3
            exact spec.2.1
          · intro hnone
            exact Option.noConfusion hnone
        | text s => simp [isBody] at hr
        | comment s => simp [isBody] at hr
    · have hnone : findFirstL isBody l = none := by
        rcases hfb : findFirstL isBody l with _ | r
        · rfl
        · rw [hfb] at hb
          simp at hb
      have hes : ensureScript l =
          (true, nlAppend l (NodeList.cons newScriptTag NodeList.nil)) := by
        rw [ensureScript, if_neg h2, if_neg hb]
      rw [hes]
      refine ⟨rfl, ?_, ?_, fun _ => rfl⟩
      · rw [countTag_nlAppend]
        simp [countTagL, countTagN, newScriptTag]
      · intro t3 a3 cs3 hf3
        rw [hnone] at hf3
        exact Option.noConfusion hf3

/-- C6 counterexample: the document whose script src is the preview path
plus one trailing newline is not case-insensitively equal to the path, yet
the code reports unchanged, so the claim as stated fails on it. -/
theorem c6_claim_counterexample : ¬ c6ClaimAt c6CeDoc := by
  intro h
  have h1 : (findFirstL isPreviewScriptSpec c6CeDoc).isSome = false := by decide
  have h2 := h.2 h1
  have h3 : (ensureScript c6CeDoc).1 = false := by decide
  rw [h2] at h3
  exact Bool.noConfusion h3

/-- C6 witness for the amended theorem at a concrete body document. -/
theorem c6_injection_witness :
    (findFirstL isPreviewScript c6Doc).isSome = false ∧
    (ensureScript c6Doc).1 = true ∧
    findFirstL isBody (ensureScript c6Doc).2 =
      some (Node.elem "body" [] (nlAppend (nlOf [Node.text "hi"])
        (NodeList.cons newScriptTag NodeList.nil))) ∧
    countTagL "script" (ensureScript c6Doc).2 = countTagL "script" c6Doc + 1 := by
  have h := (c6_script_injection c6Doc).2 (by decide)
  exact ⟨by decide, h.1, h.2.2.1 "body" [] (nlOf [Node.text "hi"]) (by rfl), h.2.1⟩

/-! ## C1 and C2 -/

/-- C1 is violated by the code: on the body-with-one-bare-anchor document
the first pass reports a change (script injection) but skips link
hardening, so the second pass changes the file again — the anchor only
gains its attributes on the second run. -/
theorem c1_second_run_changes :
    (processTree c1Doc).1 = true ∧
    (processTree (processTree c1Doc).2).1 = true ∧
    anchorAttrsL (processTree c1Doc).2 = [[("href", "x")]] ∧
    anchorAttrsL (processTree (processTree c1Doc).2).2 =
      [[("href", "x"), ("target", "_blank"), ("rel", "noopener noreferrer")]] :=
  ⟨by decide, by decide, by decide, by decide⟩

/-- C2 is violated by the code: in a single pass on the spec's end-to-end
document the file is reported changed and the script is appended, but the
anchor keeps only href — adjust_body's short-circuiting or never ran the
link-hardening sub-operation. -/
theorem c2_first_pass_skips_links :
    (processTree c1Doc).1 = true ∧
    (processTree c1Doc).2 =
      nlOf [Node.elem "body" []
        (nlOf [Node.elem "a" [("href", "x")] (nlOf [Node.text "l"]), newScriptTag])] :=
  ⟨by decide, rfl⟩
